import Mathlib

/-!
Shallow embedding of the bmb runtime's arena allocator, bounded MPSC
channel, thread pool, and event loop (src/bmb/runtime/bmb_runtime.c and
src/runtime/bmb_event_loop.c), with theorems checking the specified
behaviour of each component.

Modelling conventions:
* `size_t`/`int64_t` sizes and counters are modelled as `Nat`/`Int`;
  none of the verified properties depends on 64-bit wrap-around.
* The arena's singly linked block chain `g_arena_head .. g_arena_current`
  is modelled as a `List` stored most-recent-block first, so
  `g_arena_current` is the list head and `g_arena_head` is the last
  element.  Linking a freshly malloc'd block after the current block is
  therefore `::` at the front.
* OS allocation (`malloc` for a new arena block) is given as an explicit
  `mallocOk : Bool` input; `exit(1)` is an explicit `fatalExit` result
  carrying the diagnostic's data (current usage and the limit).
-/

/-- `BMB_ARENA_BLOCK_SIZE`: 8 MB default arena block size. -/
def BMB_ARENA_BLOCK_SIZE : Nat := 8 * 1024 * 1024

/-- `BMB_ARENA_DEFAULT_MAX_SIZE`: 4 GB default arena limit. -/
def BMB_ARENA_DEFAULT_MAX_SIZE : Nat := 4 * 1024 * 1024 * 1024

/-- One `BmbArenaBlock` (its `data` pointer is left abstract; `used` and
`capacity` are the fields the allocator computes with). -/
structure BmbArenaBlock where
  used : Nat
  capacity : Nat
deriving Repr, DecidableEq

/-- The arena's global state: the block chain (most-recent first, see the
file header), `g_arena_total_allocated`, `g_arena_max_size` (0 = not yet
initialized), and the save slot `g_arena_save_block` /
`g_arena_save_used` / `g_arena_save_total`.  `save_mark = some k` models
`g_arena_save_block` pointing at the block that heads the length-`k`
suffix of `blocks` (the chain prefix below a save point is never moved,
so this index faithfully models the C pointer). -/
structure ArenaState where
  blocks : List BmbArenaBlock
  total_allocated : Nat
  max_size : Nat
  save_mark : Option Nat
  save_used : Nat
  save_total : Nat
deriving Repr, DecidableEq

/-- Arena state at process start: empty chain, nothing allocated, limit
uninitialized, `g_arena_save_block = NULL`. -/
def bmb_arena_initial : ArenaState :=
  { blocks := [], total_allocated := 0, max_size := 0,
    save_mark := none, save_used := 0, save_total := 0 }

/-- The `BMB_ARENA_MAX_SIZE` environment parse in `bmb_arena_init_limit`:
accumulate decimal digits, then multiply by a G/M suffix taken from the
last character, defaulting to 4 GB when unset or zero. -/
def bmb_arena_limit_from_env (env : Option (List Char)) : Nat :=
  match env with
  | none => BMB_ARENA_DEFAULT_MAX_SIZE
  | some cs =>
    let val := cs.foldl
      (fun v c => if '0' ≤ c ∧ c ≤ '9' then v * 10 + (c.toNat - 48) else v) 0
    let val := match cs with
      | [] => val
      | c :: rest =>
        let last := rest.foldl (fun _ c2 => c2) c
        if last = 'G' ∨ last = 'g' then val * (1024 * 1024 * 1024)
        else if last = 'M' ∨ last = 'm' then val * (1024 * 1024)
        else val
    if val > 0 then val else BMB_ARENA_DEFAULT_MAX_SIZE

/-- `bmb_arena_init_limit`: initialize `g_arena_max_size` from the
environment on first use; a nonzero limit is kept as is. -/
def bmb_arena_init_limit (env : Option (List Char)) (st : ArenaState) : ArenaState :=
  if st.max_size ≠ 0 then st
  else { st with max_size := bmb_arena_limit_from_env env }

/-- The allocator's 8-byte alignment `(size + 7) & ~7` (equal to rounding
up to a multiple of 8 for overflow-free sizes). -/
def bmb_align8 (size : Nat) : Nat := (size + 7) / 8 * 8

/-- `bmb_arena_new_block(min_size)` with `malloc` succeeding: capacity is
`min_size + 64` when `min_size` exceeds `BMB_ARENA_BLOCK_SIZE`, else
`BMB_ARENA_BLOCK_SIZE`; `g_arena_total_allocated += cap`; the fresh block
starts with `used = 0`. -/
def bmb_arena_new_block (st : ArenaState) (min_size : Nat) : ArenaState × BmbArenaBlock :=
  let cap := if min_size > BMB_ARENA_BLOCK_SIZE then min_size + 64 else BMB_ARENA_BLOCK_SIZE
  ({ st with total_allocated := st.total_allocated + cap },
   { used := 0, capacity := cap })

/-- Result of one `bmb_arena_alloc` call: a pointer into the arena
(`ok`), the fatal limit diagnostic plus `exit(1)` (`fatalExit`, carrying
the printed usage and limit and the global state at exit), or the plain
`malloc` fallback taken when a new block cannot be allocated
(`heapFallback`, arena state untouched). -/
inductive AllocResult where
  | ok (st : ArenaState)
  | fatalExit (usage limit : Nat) (st : ArenaState)
  | heapFallback (st : ArenaState)
deriving Repr, DecidableEq

/-- The final `ptr = current->data + current->used; current->used += size`
of `bmb_arena_alloc` (the current block is the list head). -/
def bmb_arena_bump_current (st : ArenaState) (size : Nat) : ArenaState :=
  match st.blocks with
  | [] => st
  | cur :: rest => { st with blocks := { cur with used := cur.used + size } :: rest }

/-- Slow path of `bmb_arena_alloc` (`size` already aligned): initialize
the limit, fail fatally when `total_allocated + size` exceeds it,
otherwise link a new block if the current one still cannot hold `size`,
then bump the current block. -/
def bmb_arena_alloc_slow (env : Option (List Char)) (mallocOk : Bool)
    (st0 : ArenaState) (size : Nat) : AllocResult :=
  let st := bmb_arena_init_limit env st0
  if st.total_allocated + size > st.max_size then
    .fatalExit st.total_allocated st.max_size st
  else
    let needNew : Bool :=
      match st.blocks with
      | [] => true
      | cur :: _ => decide (cur.capacity < cur.used + size)
    if needNew then
      if mallocOk then
        let stb := bmb_arena_new_block st size
        .ok (bmb_arena_bump_current { stb.1 with blocks := stb.2 :: stb.1.blocks } size)
      else
        .heapFallback st
    else
      .ok (bmb_arena_bump_current st size)

/-- `bmb_arena_alloc(size)`: align to 8 bytes; fast path bumps the
current block when the request fits, otherwise take the slow path. -/
def bmb_arena_alloc (env : Option (List Char)) (mallocOk : Bool)
    (st : ArenaState) (size : Nat) : AllocResult :=
  let size := bmb_align8 size
  match st.blocks with
  | cur :: rest =>
    if cur.used + size ≤ cur.capacity then
      .ok { st with blocks := { cur with used := cur.used + size } :: rest }
    else
      bmb_arena_alloc_slow env mallocOk st size
  | [] => bmb_arena_alloc_slow env mallocOk st size

/-- `bmb_arena_save`: record the current block, its used offset (0 when
there is no current block), and the running total; returns 0. -/
def bmb_arena_save (st : ArenaState) : Int × ArenaState :=
  (0, { st with
    save_mark := match st.blocks with | [] => none | _ :: _ => some st.blocks.length,
    save_used := match st.blocks with | [] => 0 | cur :: _ => cur.used,
    save_total := st.total_allocated })

/-- `bmb_arena_restore`: no-op returning 0 when `g_arena_save_block` is
NULL; otherwise free every block linked after the save block, rewind the
save block's `used` to the saved offset, make it current again, and reset
the running total to the saved total; returns 0. -/
def bmb_arena_restore (st : ArenaState) : Int × ArenaState :=
  match st.save_mark with
  | none => (0, st)
  | some k =>
    let kept := st.blocks.drop (st.blocks.length - k)
    let blocks :=
      match kept with
      | [] => kept
      | sb :: rest => { sb with used := st.save_used } :: rest
    (0, { st with blocks := blocks, total_allocated := st.save_total })

/-- `bmb_arena_usage`: the running total `g_arena_total_allocated`. -/
def bmb_arena_usage (st : ArenaState) : Int := (st.total_allocated : Int)

/-- A sequence of `bmb_arena_alloc` calls, each with its own size and
`malloc` outcome; `none` when some call hits the fatal limit path. -/
def bmb_arena_alloc_seq (env : Option (List Char)) (st : ArenaState) :
    List (Nat × Bool) → Option ArenaState
  | [] => some st
  | (size, mOk) :: rest =>
    match bmb_arena_alloc env mOk st size with
    | .ok st' => bmb_arena_alloc_seq env st' rest
    | .heapFallback st' => bmb_arena_alloc_seq env st' rest
    | .fatalExit _ _ _ => none

/-! ### Arena: helper lemmas -/

theorem bmb_arena_init_limit_blocks (env : Option (List Char)) (st : ArenaState) :
    (bmb_arena_init_limit env st).blocks = st.blocks := by
  unfold bmb_arena_init_limit; split <;> rfl

theorem bmb_arena_init_limit_total (env : Option (List Char)) (st : ArenaState) :
    (bmb_arena_init_limit env st).total_allocated = st.total_allocated := by
  unfold bmb_arena_init_limit; split <;> rfl

theorem bmb_arena_init_limit_save (env : Option (List Char)) (st : ArenaState) :
    (bmb_arena_init_limit env st).save_mark = st.save_mark ∧
    (bmb_arena_init_limit env st).save_used = st.save_used ∧
    (bmb_arena_init_limit env st).save_total = st.save_total := by
  unfold bmb_arena_init_limit; split <;> exact ⟨rfl, rfl, rfl⟩


theorem bmb_arena_alloc_slow_shape (env : Option (List Char)) (mOk : Bool)
    (st : ArenaState) (size : Nat) (st' : ArenaState)
    (h : bmb_arena_alloc_slow env mOk st size = .ok st' ∨
         bmb_arena_alloc_slow env mOk st size = .heapFallback st') :
    st'.save_mark = st.save_mark ∧ st'.save_used = st.save_used ∧
    st'.save_total = st.save_total ∧
    (st'.blocks = st.blocks ∨
     (∃ b, st'.blocks = b :: st.blocks) ∨
     (∃ cur rest u', st.blocks = cur :: rest ∧
        st'.blocks = { cur with used := u' } :: rest)) := by
  have hsave := bmb_arena_init_limit_save env st
  have hblocks := bmb_arena_init_limit_blocks env st
  simp only [bmb_arena_alloc_slow] at h
  by_cases hfat : (bmb_arena_init_limit env st).total_allocated + size >
      (bmb_arena_init_limit env st).max_size
  · rw [if_pos hfat] at h
    rcases h with h | h <;> exact absurd h (by simp)
  · rw [if_neg hfat] at h
    rcases hB : (bmb_arena_init_limit env st).blocks with _ | ⟨c, r⟩ <;> rw [hB] at h
    · have hst : st.blocks = [] := hblocks.symm.trans hB
      cases mOk <;>
        simp only [if_true, if_false, Bool.false_eq_true, reduceIte,
          bmb_arena_new_block, bmb_arena_bump_current, hB] at h
      · rcases h with h | h
        · exact absurd h (by simp)
        · injection h with h
          subst h
          exact ⟨hsave.1, hsave.2.1, hsave.2.2, Or.inl hblocks⟩
      · rcases h with h | h
        · injection h with h
          subst h
          refine ⟨hsave.1, hsave.2.1, hsave.2.2, Or.inr (Or.inl
            ⟨⟨0 + size, if size > BMB_ARENA_BLOCK_SIZE then size + 64
              else BMB_ARENA_BLOCK_SIZE⟩, ?_⟩)⟩
          simp [hst]
        · exact absurd h (by simp)
    · have hst : st.blocks = c :: r := hblocks.symm.trans hB
      by_cases hn : c.capacity < c.used + size <;> cases mOk <;>
        simp only [hn, decide_True, decide_False, if_true, if_false,
          Bool.false_eq_true, reduceIte,
          bmb_arena_new_block, bmb_arena_bump_current, hB] at h
      · -- hn true, mOk false → heapFallback
        rcases h with h | h
        · exact absurd h (by simp)
        · injection h with h
          subst h
          exact ⟨hsave.1, hsave.2.1, hsave.2.2, Or.inl hblocks⟩
      · -- hn true, mOk true → new block linked
        rcases h with h | h
        · injection h with h
          subst h
          refine ⟨hsave.1, hsave.2.1, hsave.2.2, Or.inr (Or.inl
            ⟨⟨0 + size, if size > BMB_ARENA_BLOCK_SIZE then size + 64
              else BMB_ARENA_BLOCK_SIZE⟩, ?_⟩)⟩
          simp [hst]
        · exact absurd h (by simp)
      · -- hn false, mOk false → bump current
        rcases h with h | h
        · injection h with h
          subst h
          refine ⟨hsave.1, hsave.2.1, hsave.2.2,
            Or.inr (Or.inr ⟨c, r, c.used + size, hst, ?_⟩)⟩
          simp [hB]
        · exact absurd h (by simp)
      · -- hn false, mOk true → bump current
        rcases h with h | h
        · injection h with h
          subst h
          refine ⟨hsave.1, hsave.2.1, hsave.2.2,
            Or.inr (Or.inr ⟨c, r, c.used + size, hst, ?_⟩)⟩
          simp [hB]
        · exact absurd h (by simp)

theorem bmb_arena_alloc_shape (env : Option (List Char)) (mOk : Bool)
    (st : ArenaState) (size : Nat) (st' : ArenaState)
    (h : bmb_arena_alloc env mOk st size = .ok st' ∨
         bmb_arena_alloc env mOk st size = .heapFallback st') :
    st'.save_mark = st.save_mark ∧ st'.save_used = st.save_used ∧
    st'.save_total = st.save_total ∧
    (st'.blocks = st.blocks ∨
     (∃ b, st'.blocks = b :: st.blocks) ∨
     (∃ cur rest u', st.blocks = cur :: rest ∧
        st'.blocks = { cur with used := u' } :: rest)) := by
  simp only [bmb_arena_alloc] at h
  rcases hst : st.blocks with _ | ⟨cur, rest⟩ <;> rw [hst] at h <;> dsimp only [] at h
  · have h2 := bmb_arena_alloc_slow_shape env mOk st (bmb_align8 size) st' h
    rwa [hst] at h2
  · by_cases hfit : cur.used + bmb_align8 size ≤ cur.capacity
    · rw [if_pos hfit] at h
      rcases h with h | h
      · injection h with h
        subst h
        refine ⟨rfl, rfl, rfl, Or.inr (Or.inr
          ⟨cur, rest, cur.used + bmb_align8 size, rfl, rfl⟩)⟩
      · exact absurd h (by simp)
    · rw [if_neg hfit] at h
      have h2 := bmb_arena_alloc_slow_shape env mOk st (bmb_align8 size) st' h
      rwa [hst] at h2

/-- Invariant tying a post-`bmb_arena_save` state to the saved data. -/
def ArenaSaveInv (cur : BmbArenaBlock) (rest : List BmbArenaBlock)
    (total0 : Nat) (st : ArenaState) : Prop :=
  (∃ newer u, st.blocks = newer ++ { used := u, capacity := cur.capacity } :: rest) ∧
  st.save_mark = some (rest.length + 1) ∧
  st.save_used = cur.used ∧
  st.save_total = total0

theorem ArenaSaveInv_step (env : Option (List Char)) (mOk : Bool) (size : Nat)
    (cur : BmbArenaBlock) (rest : List BmbArenaBlock) (total0 : Nat)
    (st st' : ArenaState) (hinv : ArenaSaveInv cur rest total0 st)
    (h : bmb_arena_alloc env mOk st size = .ok st' ∨
         bmb_arena_alloc env mOk st size = .heapFallback st') :
    ArenaSaveInv cur rest total0 st' := by
  obtain ⟨⟨newer, u, hb⟩, hm, hu, ht⟩ := hinv
  obtain ⟨hm', hu', ht', hshape⟩ := bmb_arena_alloc_shape env mOk st size st' h
  refine ⟨?_, hm'.trans hm, hu'.trans hu, ht'.trans ht⟩
  rcases hshape with h1 | ⟨b, h1⟩ | ⟨c0, r0, u', hsb, h1⟩
  · exact ⟨newer, u, h1.trans hb⟩
  · exact ⟨b :: newer, u, by rw [h1, hb]; rfl⟩
  · cases newer with
    | nil =>
      rw [hb] at hsb
      simp only [List.nil_append, List.cons.injEq] at hsb
      obtain ⟨hc0, hr0⟩ := hsb
      refine ⟨[], u', ?_⟩
      rw [h1, ← hc0, hr0]
      rfl
    | cons a t =>
      rw [hb] at hsb
      simp only [List.cons_append, List.cons.injEq] at hsb
      obtain ⟨hc0, hr0⟩ := hsb
      refine ⟨{ c0 with used := u' } :: t, u, ?_⟩
      rw [h1, ← hr0]
      rfl

theorem ArenaSaveInv_seq (env : Option (List Char))
    (cur : BmbArenaBlock) (rest : List BmbArenaBlock) (total0 : Nat) :
    ∀ (reqs : List (Nat × Bool)) (st st2 : ArenaState),
      ArenaSaveInv cur rest total0 st →
      bmb_arena_alloc_seq env st reqs = some st2 →
      ArenaSaveInv cur rest total0 st2 := by
  intro reqs
  induction reqs with
  | nil =>
    intro st st2 hinv hseq
    simp only [bmb_arena_alloc_seq, Option.some.injEq] at hseq
    exact hseq ▸ hinv
  | cons req rs ih =>
    intro st st2 hinv hseq
    obtain ⟨size, mOk⟩ := req
    simp only [bmb_arena_alloc_seq] at hseq
    rcases halloc : bmb_arena_alloc env mOk st size with stn | ⟨u, l, stn⟩ | stn <;>
      rw [halloc] at hseq <;> dsimp only [] at hseq
    · exact ih stn st2 (ArenaSaveInv_step env mOk size cur rest total0 st stn hinv
        (Or.inl halloc)) hseq
    · exact absurd hseq (by simp)
    · exact ih stn st2 (ArenaSaveInv_step env mOk size cur rest total0 st stn hinv
        (Or.inr halloc)) hseq

theorem ArenaSaveInv_of_save (st0 : ArenaState) (cur : BmbArenaBlock)
    (rest : List BmbArenaBlock) (hne : st0.blocks = cur :: rest) :
    ArenaSaveInv cur rest st0.total_allocated (bmb_arena_save st0).2 := by
  unfold ArenaSaveInv bmb_arena_save
  rw [hne]
  refine ⟨⟨[], cur.used, ?_⟩, ?_, rfl, rfl⟩
  · show cur :: rest = [] ++ { used := cur.used, capacity := cur.capacity } :: rest
    cases cur
    rfl
  · show some (cur :: rest).length = some (rest.length + 1)
    simp

theorem bmb_arena_restore_of_inv (cur : BmbArenaBlock) (rest : List BmbArenaBlock)
    (total0 : Nat) (st : ArenaState) (hinv : ArenaSaveInv cur rest total0 st) :
    bmb_arena_restore st =
      (0, { st with blocks := cur :: rest, total_allocated := total0 }) := by
  obtain ⟨⟨newer, u, hb⟩, hm, hu, ht⟩ := hinv
  unfold bmb_arena_restore
  rw [hm]
  dsimp only []
  have hlen : st.blocks.length - (rest.length + 1) = newer.length := by
    rw [hb]
    simp [List.length_append]
  rw [hlen, hb]
  have hdrop : (newer ++ { used := u, capacity := cur.capacity } :: rest).drop
      newer.length = { used := u, capacity := cur.capacity } :: rest :=
    List.drop_left newer _
  rw [hdrop]
  dsimp only []
  rw [hu, ht]

/-- C5: allocations performed strictly between `bmb_arena_save` and the
matching `bmb_arena_restore` (none of them hitting the fatal limit path)
are undone by the restore: it returns 0, frees every block appended since
the save, rewinds the saved block's used offset, and `bmb_arena_usage`
returns exactly its value at the save. -/
theorem bmb_arena_save_restore_roundtrip (env : Option (List Char))
    (st0 st2 : ArenaState) (reqs : List (Nat × Bool))
    (cur : BmbArenaBlock) (rest : List BmbArenaBlock)
    (hcur : st0.blocks = cur :: rest)
    (hseq : bmb_arena_alloc_seq env (bmb_arena_save st0).2 reqs = some st2) :
    (bmb_arena_restore st2).1 = 0 ∧
    (bmb_arena_restore st2).2.blocks = st0.blocks ∧
    (bmb_arena_restore st2).2.total_allocated = st0.total_allocated ∧
    bmb_arena_usage (bmb_arena_restore st2).2 = bmb_arena_usage st0 := by
  have hinv := ArenaSaveInv_seq env cur rest st0.total_allocated reqs
    (bmb_arena_save st0).2 st2 (ArenaSaveInv_of_save st0 cur rest hcur) hseq
  have hres := bmb_arena_restore_of_inv cur rest st0.total_allocated st2 hinv
  rw [hres]
  exact ⟨rfl, hcur.symm, rfl, by simp [bmb_arena_usage]⟩

/-- Witness for C5 at a concrete run: one block saved, a small and a
block-sized allocation in between, restored to the saved state. -/
theorem bmb_arena_save_restore_roundtrip_witness :
    (bmb_arena_restore
        (⟨[⟨8388608, 8388608⟩, ⟨16, 8388608⟩], 16777216, 4294967296, some 1, 0, 8388608⟩ :
          ArenaState)).2.blocks =
      (⟨[⟨0, 8388608⟩], 8388608, 4294967296, none, 0, 0⟩ : ArenaState).blocks ∧
    bmb_arena_usage (bmb_arena_restore
        (⟨[⟨8388608, 8388608⟩, ⟨16, 8388608⟩], 16777216, 4294967296, some 1, 0, 8388608⟩ :
          ArenaState)).2 =
      bmb_arena_usage (⟨[⟨0, 8388608⟩], 8388608, 4294967296, none, 0, 0⟩ : ArenaState) := by
  have h := bmb_arena_save_restore_roundtrip none
    (⟨[⟨0, 8388608⟩], 8388608, 4294967296, none, 0, 0⟩ : ArenaState)
    (⟨[⟨8388608, 8388608⟩, ⟨16, 8388608⟩], 16777216, 4294967296, some 1, 0, 8388608⟩ :
      ArenaState)
    [(16, true), (8388608, true)] ⟨0, 8388608⟩ [] rfl (by decide)
  exact ⟨h.2.1, h.2.2.2⟩

/-- C10: `bmb_arena_restore` with `g_arena_save_block = NULL` (no save
ever performed) returns 0 and leaves the whole arena state unchanged. -/
theorem bmb_arena_restore_without_save (st : ArenaState)
    (h : st.save_mark = none) : bmb_arena_restore st = (0, st) := by
  unfold bmb_arena_restore
  rw [h]

/-- Witness for C10 at the initial arena state. -/
theorem bmb_arena_restore_without_save_witness :
    bmb_arena_restore bmb_arena_initial = (0, bmb_arena_initial) :=
  bmb_arena_restore_without_save bmb_arena_initial rfl

/-- Characterization of the slow path's limit check (`size` already
aligned): the fatal branch fires exactly when the running total plus the
request exceeds the initialized limit, reports exactly that usage and
limit, and mutates nothing; a successful slow-path allocation adds either
nothing (only when the redundant refit check sees space) or one whole new
block's capacity to the total. -/
theorem bmb_arena_alloc_slow_spec (env : Option (List Char)) (mOk : Bool)
    (st : ArenaState) (a : Nat) :
    (st.total_allocated + a > (bmb_arena_init_limit env st).max_size →
      bmb_arena_alloc_slow env mOk st a =
        .fatalExit st.total_allocated (bmb_arena_init_limit env st).max_size
          (bmb_arena_init_limit env st)) ∧
    (∀ u l st', bmb_arena_alloc_slow env mOk st a = .fatalExit u l st' →
      u = st.total_allocated ∧ l = (bmb_arena_init_limit env st).max_size ∧
      st' = bmb_arena_init_limit env st ∧
      st.total_allocated + a > (bmb_arena_init_limit env st).max_size) ∧
    (∀ st', bmb_arena_alloc_slow env mOk st a = .ok st' →
      st.total_allocated + a ≤ (bmb_arena_init_limit env st).max_size ∧
      (st'.total_allocated = st.total_allocated ∨
       st'.total_allocated = st.total_allocated +
         (if a > BMB_ARENA_BLOCK_SIZE then a + 64 else BMB_ARENA_BLOCK_SIZE))) := by
  have htot := bmb_arena_init_limit_total env st
  by_cases hfat : (bmb_arena_init_limit env st).total_allocated + a >
      (bmb_arena_init_limit env st).max_size
  · have hfat' : st.total_allocated + a > (bmb_arena_init_limit env st).max_size := by
      rwa [htot] at hfat
    refine ⟨fun _ => ?_, fun u l st' h => ?_, fun st' h => ?_⟩
    · unfold bmb_arena_alloc_slow
      rw [if_pos hfat, htot]
    · unfold bmb_arena_alloc_slow at h
      rw [if_pos hfat] at h
      injection h with h1 h2 h3
      exact ⟨h1.symm.trans htot, h2.symm, h3.symm, hfat'⟩
    · unfold bmb_arena_alloc_slow at h
      rw [if_pos hfat] at h
      exact absurd h (by simp)
  · have hle : st.total_allocated + a ≤ (bmb_arena_init_limit env st).max_size := by
      rw [← htot]
      omega
    refine ⟨fun hgt => absurd hgt (by omega), fun u l st' h => ?_, fun st' h => ?_⟩
    · unfold bmb_arena_alloc_slow at h
      rw [if_neg hfat] at h
      rcases hB : (bmb_arena_init_limit env st).blocks with _ | ⟨c, r⟩ <;> rw [hB] at h <;>
        cases mOk <;>
        simp only [if_true, if_false, Bool.false_eq_true, reduceIte,
          bmb_arena_new_block, bmb_arena_bump_current, hB] at h
      · exact absurd h (by simp)
      · exact absurd h (by simp)
      · by_cases hn : c.capacity < c.used + a <;>
          simp only [hn, decide_True, decide_False, if_true, if_false,
            Bool.false_eq_true, reduceIte] at h <;> exact absurd h (by simp)
      · by_cases hn : c.capacity < c.used + a <;>
          simp only [hn, decide_True, decide_False, if_true, if_false,
            Bool.false_eq_true, reduceIte] at h <;> exact absurd h (by simp)
    · refine ⟨hle, ?_⟩
      unfold bmb_arena_alloc_slow at h
      rw [if_neg hfat] at h
      rcases hB : (bmb_arena_init_limit env st).blocks with _ | ⟨c, r⟩ <;> rw [hB] at h <;>
        cases mOk <;>
        simp only [if_true, if_false, Bool.false_eq_true, reduceIte,
          bmb_arena_new_block, bmb_arena_bump_current, hB] at h
      · exact absurd h (by simp)
      · injection h with h
        subst h
        right
        simp [htot]
      · by_cases hn : c.capacity < c.used + a <;>
          simp only [hn, decide_True, decide_False, if_true, if_false,
            Bool.false_eq_true, reduceIte] at h
        · exact absurd h (by simp)
        · injection h with h
          subst h
          left
          exact htot
      · by_cases hn : c.capacity < c.used + a <;>
          simp only [hn, decide_True, decide_False, if_true, if_false,
            Bool.false_eq_true, reduceIte] at h
        · injection h with h
          subst h
          right
          simp [htot]
        · injection h with h
          subst h
          left
          exact htot

/-- C3 counterexample: with the limit configured to 8 bytes (environment
value "8"), a single 1-byte allocation succeeds without any fatal
diagnostic and leaves the cumulative allocated total at 8388608 bytes,
far above the configured maximum: the claimed invariant
"cumulative total never exceeds the configured maximum" is false. -/
theorem bmb_arena_limit_exceeded_cex :
    bmb_arena_alloc (some ['8']) true bmb_arena_initial 1 =
      .ok (⟨[⟨8, 8388608⟩], 8388608, 8, none, 0, 0⟩ : ArenaState) ∧
    ¬ ((⟨[⟨8, 8388608⟩], 8388608, 8, none, 0, 0⟩ : ArenaState).total_allocated ≤
       (⟨[⟨8, 8388608⟩], 8388608, 8, none, 0, 0⟩ : ArenaState).max_size) :=
  ⟨by decide, by decide⟩

/-- C3 amended: `bmb_arena_alloc` checks the cumulative total plus the
aligned request against the configured maximum only when a new block is
needed; when that check fails it exits fatally with a diagnostic naming
the current usage and the limit and performs no (partial) allocation, and
when it passes the newly linked block may push the cumulative total past
the maximum by at most one default-sized block. -/
theorem bmb_arena_limit_check_amended (env : Option (List Char)) (mallocOk : Bool)
    (st : ArenaState) (size : Nat) :
    (∀ usage limit st',
      bmb_arena_alloc env mallocOk st size = .fatalExit usage limit st' →
      usage = st.total_allocated ∧
      limit = (bmb_arena_init_limit env st).max_size ∧
      st'.blocks = st.blocks ∧ st'.total_allocated = st.total_allocated ∧
      st.total_allocated + bmb_align8 size > (bmb_arena_init_limit env st).max_size) ∧
    ((match st.blocks with
      | [] => True
      | cur :: _ => cur.capacity < cur.used + bmb_align8 size) →
      st.total_allocated + bmb_align8 size > (bmb_arena_init_limit env st).max_size →
      bmb_arena_alloc env mallocOk st size =
        .fatalExit st.total_allocated (bmb_arena_init_limit env st).max_size
          (bmb_arena_init_limit env st)) ∧
    (∀ st', bmb_arena_alloc env mallocOk st size = .ok st' →
      st'.total_allocated ≤
        max st.total_allocated
          ((bmb_arena_init_limit env st).max_size + BMB_ARENA_BLOCK_SIZE)) := by
  have hspec := bmb_arena_alloc_slow_spec env mallocOk st (bmb_align8 size)
  have hblocks := bmb_arena_init_limit_blocks env st
  have h64 : (64 : Nat) ≤ BMB_ARENA_BLOCK_SIZE := by norm_num [BMB_ARENA_BLOCK_SIZE]
  have hok_bound : ∀ st', bmb_arena_alloc_slow env mallocOk st (bmb_align8 size) = .ok st' →
      st'.total_allocated ≤
        max st.total_allocated
          ((bmb_arena_init_limit env st).max_size + BMB_ARENA_BLOCK_SIZE) := by
    intro st' h
    obtain ⟨hle, htot⟩ := hspec.2.2 st' h
    rcases htot with htot | htot
    · rw [htot]
      exact le_max_left _ _
    · refine le_trans ?_ (le_max_right _ _)
      rw [htot]
      split <;> omega
  simp only [bmb_arena_alloc]
  rcases hst : st.blocks with _ | ⟨cur, rest⟩ <;> dsimp only []
  · refine ⟨fun usage limit st' h => ?_, fun _ hgt => hspec.1 hgt, hok_bound⟩
    obtain ⟨h1, h2, h3, h4⟩ := hspec.2.1 usage limit st' h
    exact ⟨h1, h2, by rw [h3, hblocks, hst], by rw [h3, bmb_arena_init_limit_total], h4⟩
  · by_cases hfit : cur.used + bmb_align8 size ≤ cur.capacity <;>
      simp only [hfit, if_true, if_false, reduceIte]
    · refine ⟨fun usage limit st' h => absurd h (by simp), fun hfull _ => ?_,
        fun st' h => ?_⟩
      · exact absurd hfull (by omega)
      · injection h with h
        subst h
        exact le_max_left _ _
    · refine ⟨fun usage limit st' h => ?_, fun _ hgt => hspec.1 hgt, hok_bound⟩
      obtain ⟨h1, h2, h3, h4⟩ := hspec.2.1 usage limit st' h
      exact ⟨h1, h2, by rw [h3, hblocks, hst], by rw [h3, bmb_arena_init_limit_total], h4⟩

/-- Witness for the C3 amendment: a 9-byte request on the empty arena
with an 8-byte limit exits fatally reporting usage 0 against limit 8. -/
theorem bmb_arena_limit_check_amended_witness :
    bmb_arena_alloc (some ['8']) true bmb_arena_initial 9 =
      .fatalExit 0 8 (bmb_arena_init_limit (some ['8']) bmb_arena_initial) := by
  have h := (bmb_arena_limit_check_amended (some ['8']) true bmb_arena_initial 9).2.1
    trivial (by decide)
  have h8 : (bmb_arena_init_limit (some ['8']) bmb_arena_initial).max_size = 8 := by decide
  rw [h8] at h
  exact h

/-- C6 counterexample: an (already 8-byte-aligned) request of
`BMB_ARENA_BLOCK_SIZE + 8` bytes on an empty arena links a new block of
capacity `request + 64`, not `max(default_block_size, request)`. -/
theorem bmb_arena_new_block_capacity_cex :
    bmb_arena_alloc none true bmb_arena_initial 8388616 =
      .ok (⟨[⟨8388616, 8388680⟩], 8388680, 4294967296, none, 0, 0⟩ : ArenaState) ∧
    ¬ ((8388680 : Nat) = max BMB_ARENA_BLOCK_SIZE 8388616) :=
  ⟨by decide, by decide⟩

/-- C6 amended: when the request does not fit the current block (and the
limit is not hit), `bmb_arena_alloc` links one new block in front of the
chain whose capacity is `BMB_ARENA_BLOCK_SIZE` if the aligned request
fits in that, and the aligned request plus 64 slack bytes otherwise. -/
theorem bmb_arena_new_block_capacity (env : Option (List Char)) (st : ArenaState)
    (size : Nat) (st' : ArenaState)
    (hfull : match st.blocks with
      | [] => True
      | cur :: _ => cur.capacity < cur.used + bmb_align8 size)
    (hok : bmb_arena_alloc env true st size = .ok st') :
    st'.blocks =
      { used := bmb_align8 size,
        capacity := if bmb_align8 size > BMB_ARENA_BLOCK_SIZE
          then bmb_align8 size + 64 else BMB_ARENA_BLOCK_SIZE } :: st.blocks := by
  have hblocks := bmb_arena_init_limit_blocks env st
  simp only [bmb_arena_alloc] at hok
  rcases hst : st.blocks with _ | ⟨cur, rest⟩ <;> rw [hst] at hok hblocks <;>
    dsimp only [] at hok
  · simp only [bmb_arena_alloc_slow] at hok
    by_cases hfat : (bmb_arena_init_limit env st).total_allocated + bmb_align8 size >
        (bmb_arena_init_limit env st).max_size
    · rw [if_pos hfat] at hok
      exact absurd hok (by simp)
    · rw [if_neg hfat, hblocks] at hok
      simp only [if_true, reduceIte, bmb_arena_new_block,
        bmb_arena_bump_current] at hok
      injection hok with hok
      subst hok
      simp [hblocks]
  · have hfull2 : cur.capacity < cur.used + bmb_align8 size := by
      rw [hst] at hfull
      exact hfull
    have hnfit : ¬ cur.used + bmb_align8 size ≤ cur.capacity := by omega
    rw [if_neg hnfit] at hok
    simp only [bmb_arena_alloc_slow] at hok
    by_cases hfat : (bmb_arena_init_limit env st).total_allocated + bmb_align8 size >
        (bmb_arena_init_limit env st).max_size
    · rw [if_pos hfat] at hok
      exact absurd hok (by simp)
    · rw [if_neg hfat, hblocks] at hok
      simp only [hfull2, decide_True, if_true, reduceIte, bmb_arena_new_block,
        bmb_arena_bump_current] at hok
      injection hok with hok
      subst hok
      simp [hblocks]

/-- Witness for the C6 amendment at the counterexample input: the fresh
block's capacity is the aligned request plus 64. -/
theorem bmb_arena_new_block_capacity_witness :
    (⟨[⟨8388616, 8388680⟩], 8388680, 4294967296, none, 0, 0⟩ : ArenaState).blocks =
      { used := bmb_align8 8388616,
        capacity := if bmb_align8 8388616 > BMB_ARENA_BLOCK_SIZE
          then bmb_align8 8388616 + 64 else BMB_ARENA_BLOCK_SIZE } ::
        bmb_arena_initial.blocks :=
  bmb_arena_new_block_capacity none bmb_arena_initial 8388616
    (⟨[⟨8388616, 8388680⟩], 8388680, 4294967296, none, 0, 0⟩ : ArenaState)
    trivial (by decide)

/-!
### Bounded MPSC channel

Each C channel function takes the lock, works, and releases it; each Lean
function below models one such critical section as a function of the
channel state observed under the lock.  The `int64_t` ring buffer is a
list of length `capacity` (cells are modelled as 0 before their first
write; the code never reads an unwritten cell while `count` is
maintained).  A `blocked` result models the condition-variable wait being
entered (`not_full` / `not_empty`); a woken call re-checks the loop
condition against the state at wake time, which is exactly the function
applied to that state.
-/

/-- The `BmbChannel` struct: ring buffer, capacity, `head` (next write),
`tail` (next read), `count`, `sender_count`, `closed`. -/
structure BmbChannel where
  buffer : List Int
  capacity : Nat
  head : Nat
  tail : Nat
  count : Nat
  sender_count : Int
  closed : Bool
deriving Repr, DecidableEq

/-- `bmb_channel_new(capacity)`: empty ring, one sender, not closed. -/
def bmb_channel_new (capacity : Nat) : BmbChannel :=
  { buffer := List.replicate capacity 0, capacity := capacity, head := 0,
    tail := 0, count := 0, sender_count := 1, closed := false }

/-- Outcome of `bmb_channel_send` (a `void` function): `blocked` when the
wait loop is entered (full and not closed), otherwise `done` with the
state at lock release.  `done` carries no failure indication, exactly as
the C function reports none. -/
inductive SendResult where
  | blocked
  | done (ch : BmbChannel)
deriving Repr, DecidableEq

/-- `bmb_channel_send(value)`: wait while full and not closed; then
enqueue at `head` only when not closed. -/
def bmb_channel_send (ch : BmbChannel) (value : Int) : SendResult :=
  if ch.count = ch.capacity ∧ ch.closed = false then .blocked
  else if ch.closed = false then
    .done { ch with buffer := ch.buffer.set ch.head value,
                    head := (ch.head + 1) % ch.capacity,
                    count := ch.count + 1 }
  else .done ch

/-- Outcome of `bmb_channel_recv`: `blocked` when the wait loop is
entered (empty and not closed), else `done` with the returned value (the
local `value` starts at 0 and is only overwritten when `count > 0`). -/
inductive RecvResult where
  | blocked
  | done (value : Int) (ch : BmbChannel)
deriving Repr, DecidableEq

/-- `bmb_channel_recv()`: wait while empty and not closed; then dequeue
from `tail` when a value is buffered, else return 0. -/
def bmb_channel_recv (ch : BmbChannel) : RecvResult :=
  if ch.count = 0 ∧ ch.closed = false then .blocked
  else if ch.count > 0 then
    .done (ch.buffer.getD ch.tail 0)
      { ch with tail := (ch.tail + 1) % ch.capacity, count := ch.count - 1 }
  else .done 0 ch

/-- `bmb_channel_try_send(value)`: non-blocking; enqueue and return 1
when there is room and the channel is open, else return 0. -/
def bmb_channel_try_send (ch : BmbChannel) (value : Int) : Int × BmbChannel :=
  if ch.count < ch.capacity ∧ ch.closed = false then
    (1, { ch with buffer := ch.buffer.set ch.head value,
                  head := (ch.head + 1) % ch.capacity,
                  count := ch.count + 1 })
  else (0, ch)

/-- `bmb_channel_close()`: set the closed flag (and wake all waiters). -/
def bmb_channel_close (ch : BmbChannel) : BmbChannel :=
  { ch with closed := true }

/-- Abstraction: the buffered values in dequeue order. -/
def bmb_channel_contents (ch : BmbChannel) : List Int :=
  (List.range ch.count).map (fun i => ch.buffer.getD ((ch.tail + i) % ch.capacity) 0)

/-- Ring-buffer well-formedness maintained by every channel operation. -/
def BmbChannelWF (ch : BmbChannel) : Prop :=
  ch.buffer.length = ch.capacity ∧ 0 < ch.capacity ∧ ch.tail < ch.capacity ∧
  ch.head = (ch.tail + ch.count) % ch.capacity ∧ ch.count ≤ ch.capacity

/-- A sequence of sends; `none` if any of them would block. -/
def bmb_channel_send_list (ch : BmbChannel) : List Int → Option BmbChannel
  | [] => some ch
  | v :: vs =>
    match bmb_channel_send ch v with
    | .done ch' => bmb_channel_send_list ch' vs
    | .blocked => none

/-- A sequence of `n` receives collecting the returned values; `none` if
any of them would block. -/
def bmb_channel_recv_list (ch : BmbChannel) : Nat → Option (List Int × BmbChannel)
  | 0 => some ([], ch)
  | n + 1 =>
    match bmb_channel_recv ch with
    | .done v ch' =>
      match bmb_channel_recv_list ch' n with
      | some (vs, ch'') => some (v :: vs, ch'')
      | none => none
    | .blocked => none

theorem ring_index_ne (cap tail i j : Nat) (hi : i < cap) (hj : j < cap)
    (hne : i ≠ j) : (tail + i) % cap ≠ (tail + j) % cap := by
  intro h
  have h2 : i % cap = j % cap := Nat.ModEq.add_left_cancel' tail h
  rw [Nat.mod_eq_of_lt hi, Nat.mod_eq_of_lt hj] at h2
  exact hne h2

theorem bmb_channel_send_spec (ch : BmbChannel) (v : Int) (hwf : BmbChannelWF ch)
    (hroom : ch.count < ch.capacity) (hopen : ch.closed = false) :
    ∃ ch', bmb_channel_send ch v = .done ch' ∧ BmbChannelWF ch' ∧
      ch'.closed = false ∧ ch'.capacity = ch.capacity ∧ ch'.count = ch.count + 1 ∧
      bmb_channel_contents ch' = bmb_channel_contents ch ++ [v] := by
  obtain ⟨hbuf, hcap, htail, hhead, hcount⟩ := hwf
  have hnotfull : ¬ (ch.count = ch.capacity ∧ ch.closed = false) := by
    intro hc
    omega
  refine ⟨{ ch with
      buffer := ch.buffer.set ch.head v,
      head := (ch.head + 1) % ch.capacity,
      count := ch.count + 1 },
    ?_, ?_, hopen, rfl, rfl, ?_⟩
  · simp only [bmb_channel_send]
    rw [if_neg hnotfull, if_pos hopen]
  · refine ⟨by simpa using hbuf, hcap, htail, ?_, ?_⟩
    · show (ch.head + 1) % ch.capacity = (ch.tail + (ch.count + 1)) % ch.capacity
      rw [hhead, Nat.mod_add_mod, ← Nat.add_assoc]
    · show ch.count + 1 ≤ ch.capacity
      omega
  · show (List.range (ch.count + 1)).map
        (fun i => (ch.buffer.set ch.head v).getD ((ch.tail + i) % ch.capacity) 0) =
      (List.range ch.count).map
        (fun i => ch.buffer.getD ((ch.tail + i) % ch.capacity) 0) ++ [v]
    rw [List.range_succ, List.map_append]
    congr 1
    · apply List.map_congr_left
      intro i hi
      have hilt : i < ch.count := List.mem_range.mp hi
      have hne : (ch.tail + i) % ch.capacity ≠ ch.head := by
        rw [hhead]
        exact ring_index_ne ch.capacity ch.tail i ch.count (by omega) (by omega) (by omega)
      rw [List.getD_eq_getElem?_getD, List.getD_eq_getElem?_getD, List.getElem?_set,
        if_neg (Ne.symm hne)]
    · have hlt : ch.head < ch.buffer.length := by
        rw [hbuf, hhead]
        exact Nat.mod_lt _ hcap
      have heq : (ch.tail + ch.count) % ch.capacity = ch.head := hhead.symm
      simp only [List.map_cons, List.map_nil, heq]
      rw [List.getD_eq_getElem?_getD, List.getElem?_set, if_pos rfl, if_pos hlt]
      rfl

theorem bmb_channel_recv_spec (ch : BmbChannel) (hwf : BmbChannelWF ch)
    (hne : 0 < ch.count) :
    ∃ ch', bmb_channel_recv ch = .done (ch.buffer.getD ch.tail 0) ch' ∧
      BmbChannelWF ch' ∧ ch'.closed = ch.closed ∧ ch'.capacity = ch.capacity ∧
      ch'.count = ch.count - 1 ∧
      bmb_channel_contents ch = ch.buffer.getD ch.tail 0 :: bmb_channel_contents ch' := by
  obtain ⟨hbuf, hcap, htail, hhead, hcount⟩ := hwf
  have hnotempty : ¬ (ch.count = 0 ∧ ch.closed = false) := by
    intro hc
    omega
  refine ⟨{ ch with
      tail := (ch.tail + 1) % ch.capacity,
      count := ch.count - 1 },
    ?_, ?_, rfl, rfl, rfl, ?_⟩
  · simp only [bmb_channel_recv]
    rw [if_neg hnotempty, if_pos hne]
  · refine ⟨hbuf, hcap, Nat.mod_lt _ hcap, ?_, ?_⟩
    · show ch.head = ((ch.tail + 1) % ch.capacity + (ch.count - 1)) % ch.capacity
      have hadd : ch.tail + 1 + (ch.count - 1) = ch.tail + ch.count := by omega
      rw [Nat.mod_add_mod, hadd]
      exact hhead
    · show ch.count - 1 ≤ ch.capacity
      omega
  · show (List.range ch.count).map
        (fun i => ch.buffer.getD ((ch.tail + i) % ch.capacity) 0) =
      ch.buffer.getD ch.tail 0 ::
        (List.range (ch.count - 1)).map
          (fun i => ch.buffer.getD (((ch.tail + 1) % ch.capacity + i) % ch.capacity) 0)
    have hc : ch.count = (ch.count - 1) + 1 := by omega
    rw [hc, List.range_succ_eq_map, List.map_cons, List.map_map]
    congr 1
    · rw [Nat.add_zero, Nat.mod_eq_of_lt htail]
    · apply List.map_congr_left
      intro i _
      show ch.buffer.getD ((ch.tail + Nat.succ i) % ch.capacity) 0 =
        ch.buffer.getD (((ch.tail + 1) % ch.capacity + i) % ch.capacity) 0
      rw [Nat.mod_add_mod]
      congr 2
      omega

theorem bmb_channel_send_list_spec :
    ∀ (vs : List Int) (ch : BmbChannel), BmbChannelWF ch → ch.closed = false →
      ch.count + vs.length ≤ ch.capacity →
      ∃ ch', bmb_channel_send_list ch vs = some ch' ∧ BmbChannelWF ch' ∧
        ch'.closed = false ∧ ch'.capacity = ch.capacity ∧
        ch'.count = ch.count + vs.length ∧
        bmb_channel_contents ch' = bmb_channel_contents ch ++ vs := by
  intro vs
  induction vs with
  | nil =>
    intro ch hwf hopen _
    exact ⟨ch, rfl, hwf, hopen, rfl, by simp, by simp⟩
  | cons v vs ih =>
    intro ch hwf hopen hlen
    simp only [List.length_cons] at hlen
    obtain ⟨ch1, hsend, hwf1, hopen1, hcap1, hcount1, hcont1⟩ :=
      bmb_channel_send_spec ch v hwf (by omega) hopen
    obtain ⟨ch2, hrest, hwf2, hopen2, hcap2, hcount2, hcont2⟩ :=
      ih ch1 hwf1 hopen1 (by rw [hcount1, hcap1]; omega)
    refine ⟨ch2, ?_, hwf2, hopen2, hcap2.trans hcap1, ?_, ?_⟩
    · simp only [bmb_channel_send_list, hsend]
      exact hrest
    · simp only [List.length_cons]
      omega
    · rw [hcont2, hcont1]
      simp

theorem bmb_channel_recv_list_spec :
    ∀ (n : Nat) (ch : BmbChannel), BmbChannelWF ch → n = ch.count →
      ∃ ch', bmb_channel_recv_list ch n = some (bmb_channel_contents ch, ch') := by
  intro n
  induction n with
  | zero =>
    intro ch hwf h0
    refine ⟨ch, ?_⟩
    simp [bmb_channel_recv_list, bmb_channel_contents, ← h0]
  | succ n ih =>
    intro ch hwf hn
    obtain ⟨ch1, hrecv, hwf1, _, _, hcount1, hcont⟩ :=
      bmb_channel_recv_spec ch hwf (by omega)
    obtain ⟨ch2, hrest⟩ := ih ch1 hwf1 (by omega)
    refine ⟨ch2, ?_⟩
    simp only [bmb_channel_recv_list, hrecv, hrest]
    rw [hcont]

theorem bmb_channel_new_wf (capacity : Nat) (hcap : 0 < capacity) :
    BmbChannelWF (bmb_channel_new capacity) ∧
    (bmb_channel_new capacity).closed = false ∧
    bmb_channel_contents (bmb_channel_new capacity) = [] := by
  refine ⟨⟨by simp [bmb_channel_new], hcap, hcap, by simp [bmb_channel_new], by simp [bmb_channel_new]⟩,
    rfl, ?_⟩
  simp [bmb_channel_contents, bmb_channel_new]

/-- C2: N sends then N receives on a fresh, never-closed channel of
capacity at least N succeed without blocking and deliver the values in
send order (strict FIFO); concretely on capacity 2, `send 1` and `send 2`
complete without blocking, `bmb_channel_try_send 3` fails returning 0 and
leaving the channel unchanged, and the next two `bmb_channel_recv` calls
return 1 then 2. -/
theorem bmb_channel_fifo (capacity : Nat) (vs : List Int)
    (hlen : vs.length ≤ capacity) :
    (∃ ch', bmb_channel_send_list (bmb_channel_new capacity) vs = some ch' ∧
       ∃ ch'', bmb_channel_recv_list ch' vs.length = some (vs, ch'')) ∧
    (∃ ch2, bmb_channel_send_list (bmb_channel_new 2) [1, 2] = some ch2 ∧
       bmb_channel_try_send ch2 3 = (0, ch2) ∧
       ∃ ch4, bmb_channel_recv_list ch2 2 = some ([1, 2], ch4)) := by
  constructor
  · by_cases hcap : 0 < capacity
    · obtain ⟨hwf0, hopen0, hcont0⟩ := bmb_channel_new_wf capacity hcap
      obtain ⟨ch1, hsend, hwf1, hopen1, hcap1, hcount1, hcont1⟩ :=
        bmb_channel_send_list_spec vs (bmb_channel_new capacity) hwf0 hopen0
          (by simpa [bmb_channel_new] using hlen)
      obtain ⟨ch2, hrecv⟩ := bmb_channel_recv_list_spec vs.length ch1 hwf1
        (by rw [hcount1]; simp [bmb_channel_new])
      rw [hcont1, hcont0] at hrecv
      exact ⟨ch1, hsend, ch2, by simpa using hrecv⟩
    · have hvs : vs = [] := by
        have : vs.length = 0 := by omega
        exact List.length_eq_zero.mp this
      subst hvs
      exact ⟨bmb_channel_new capacity, rfl, bmb_channel_new capacity, rfl⟩
  · exact ⟨⟨[1, 2], 2, 0, 0, 2, 1, false⟩, by decide, by decide,
      ⟨[1, 2], 2, 0, 0, 0, 1, false⟩, by decide⟩

/-- Witness for C2: the general FIFO statement instantiated at
capacity 2 with sends of 1 and 2. -/
theorem bmb_channel_fifo_witness :
    ∃ ch', bmb_channel_send_list (bmb_channel_new 2) [1, 2] = some ch' ∧
      ∃ ch'', bmb_channel_recv_list ch' 2 = some ([1, 2], ch'') :=
  (bmb_channel_fifo 2 [1, 2] (by decide)).1

/-- C4: `bmb_channel_send` on a closed channel — including a sender that
was blocked on a full channel and woken by `bmb_channel_close`, which
re-checks the wait condition with the closed flag set — returns without
enqueueing anything (the state is returned unchanged) and without
reporting failure (`SendResult.done` carries no error, as the C function
returns `void`). -/
theorem bmb_channel_send_closed (ch : BmbChannel) (v : Int)
    (hclosed : ch.closed = true) : bmb_channel_send ch v = .done ch := by
  simp [bmb_channel_send, hclosed]

/-- Witness for C4: a sender woken by close on a full capacity-1 channel
completes without enqueueing. -/
theorem bmb_channel_send_closed_witness :
    bmb_channel_send (bmb_channel_close ⟨[5], 1, 0, 0, 1, 1, false⟩) 7 =
      .done (bmb_channel_close ⟨[5], 1, 0, 0, 1, 1, false⟩) :=
  bmb_channel_send_closed (bmb_channel_close ⟨[5], 1, 0, 0, 1, 1, false⟩) 7 rfl

/-!
### Thread pool

`BmbThreadPool` models the POSIX pool struct: the spawned `pthread_t`
array is represented by the number of created worker threads, and the
`task_head`/`task_tail` FIFO queue by a list of task function handles
(front = `task_head`).  The lock and condition variable serialize queue
access; the worker loop and `join` below model the post-shutdown regime
in which they interact.
-/

/-- The `BmbThreadPool` struct. -/
structure BmbThreadPool where
  workers : Nat
  num_workers : Int
  tasks : List Int
  shutdown : Bool
  active_tasks : Int
deriving Repr, DecidableEq

/-- `bmb_thread_pool_new(num_workers)`: substitute 4 when the requested
count is not positive, then (with `malloc` succeeding) create the pool
and spawn that many persistent workers. -/
def bmb_thread_pool_new (mallocOk : Bool) (num_workers0 : Int) : Option BmbThreadPool :=
  let num_workers := if num_workers0 ≤ 0 then 4 else num_workers0
  if mallocOk then
    some { workers := num_workers.toNat, num_workers := num_workers,
           tasks := [], shutdown := false, active_tasks := 0 }
  else
    none

/-- One worker's `bmb_thread_pool_worker` loop, run from a state in which
shutdown has been requested and no concurrent `execute` interferes (the
`bmb_thread_pool_join` scenario): while the queue is non-empty the worker
dequeues the head and executes it (the transient `active_tasks` increment
and decrement around the execution cancel out); it exits only when it
observes `shutdown` with an empty queue.  `none` models the worker
entering the condition wait (only possible when shutdown has not been
requested). -/
def bmb_thread_pool_worker_drain (pool : BmbThreadPool) : Option (List Int × BmbThreadPool) :=
  if pool.shutdown = false then
    none
  else
    match h : pool.tasks with
    | [] => some ([], pool)
    | t :: rest =>
      match bmb_thread_pool_worker_drain { pool with tasks := rest } with
      | some (executed, p') => some (t :: executed, p')
      | none => none
termination_by pool.tasks.length
decreasing_by simp [h]

/-- `bmb_thread_pool_join`: set the shutdown flag and wake all workers,
`pthread_join` each worker (modelled for a single worker by running its
loop to termination), then free — without executing — any tasks still
queued after the workers exited.  Returns the tasks executed by the
worker, the tasks freed unexecuted, and the final pool state. -/
def bmb_thread_pool_join (pool : BmbThreadPool) :
    Option (List Int × List Int × BmbThreadPool) :=
  match bmb_thread_pool_worker_drain { pool with shutdown := true } with
  | some (executed, p') => some (executed, p'.tasks, { p' with tasks := [] })
  | none => none

theorem bmb_thread_pool_worker_drain_spec :
    ∀ (ts : List Int) (pool : BmbThreadPool), pool.shutdown = true →
      pool.tasks = ts →
      bmb_thread_pool_worker_drain pool = some (ts, { pool with tasks := [] }) := by
  intro ts
  induction ts with
  | nil =>
    intro pool hsd hts
    rw [bmb_thread_pool_worker_drain, if_neg (by simp [hsd] : ¬ pool.shutdown = false)]
    split
    · cases pool
      simp only at hts
      subst hts
      rfl
    · rename_i t rest heq
      rw [hts] at heq
      exact absurd heq (by simp)
  | cons t rest ih =>
    intro pool hsd hts
    rw [bmb_thread_pool_worker_drain, if_neg (by simp [hsd] : ¬ pool.shutdown = false)]
    split
    · rename_i heq
      rw [hts] at heq
      exact absurd heq (by simp)
    · rename_i t2 rest2 heq
      rw [hts] at heq
      injection heq with ht hr
      subst ht
      subst hr
      rw [ih { pool with tasks := rest } hsd rfl]

/-- C1 counterexample: a single-worker pool with one task (handle 42)
still queued when `bmb_thread_pool_join` is called: the worker loop's
exit condition (`shutdown && task_head == NULL`) makes it dequeue and
execute the task, so join executes it and discards nothing — not the
claimed "discard rather than execute". -/
theorem bmb_thread_pool_join_discards_cex :
    bmb_thread_pool_join ⟨1, 1, [42], false, 0⟩ =
      some ([42], [], ⟨1, 1, [], true, 0⟩) ∧
    bmb_thread_pool_join ⟨1, 1, [42], false, 0⟩ ≠
      some ([], [42], ⟨1, 1, [], true, 0⟩) := by
  constructor
  · rw [bmb_thread_pool_join,
      bmb_thread_pool_worker_drain_spec [42] ⟨1, 1, [42], true, 0⟩ rfl rfl]
  · rw [bmb_thread_pool_join,
      bmb_thread_pool_worker_drain_spec [42] ⟨1, 1, [42], true, 0⟩ rfl rfl]
    simp

/-- C1 amended: for a single-worker pool, `bmb_thread_pool_join` requests
shutdown and blocks until the worker terminates, but the worker — whose
exit condition requires an empty queue — first executes every task still
queued at the time of the call, in FIFO order; join's cleanup then frees
nothing. -/
theorem bmb_thread_pool_join_executes_queued (pool : BmbThreadPool)
    (hw : pool.num_workers = 1) :
    bmb_thread_pool_join pool =
      some (pool.tasks, [], { pool with shutdown := true, tasks := [] }) := by
  rw [bmb_thread_pool_join,
    bmb_thread_pool_worker_drain_spec pool.tasks { pool with shutdown := true } rfl rfl]

/-- Witness for the C1 amendment at the counterexample pool. -/
theorem bmb_thread_pool_join_executes_queued_witness :
    bmb_thread_pool_join ⟨1, 1, [42], false, 0⟩ =
      some ([42], [], ⟨1, 1, [], true, 0⟩) :=
  bmb_thread_pool_join_executes_queued ⟨1, 1, [42], false, 0⟩ rfl

/-- C9: `bmb_thread_pool_new` with a non-positive worker count silently
substitutes the default of 4: it does not fail and spawns 4 persistent
worker threads. -/
theorem bmb_thread_pool_new_default (n : Int) (hn : n ≤ 0) :
    bmb_thread_pool_new true n =
      some { workers := 4, num_workers := 4, tasks := [],
             shutdown := false, active_tasks := 0 } := by
  simp [bmb_thread_pool_new, hn]

/-- Witness for C9 at `num_workers = 0`. -/
theorem bmb_thread_pool_new_default_witness :
    bmb_thread_pool_new true 0 =
      some { workers := 4, num_workers := 4, tasks := [],
             shutdown := false, active_tasks := 0 } :=
  bmb_thread_pool_new_default 0 (by decide)

/-!
### Event loop (reactor)

Embedding of the Linux backend of `src/runtime/bmb_event_loop.c` (the
registration-table logic is identical in all three backends).  The fixed
`entries[BMB_MAX_FDS]` array is modelled by the list of its first
`entry_count` entries, so `entry_count` is the list length; `entry_count++`
appends.  Callbacks and `user_data` are opaque pointer values (`0` =
`NULL`).  The `epoll_ctl` syscall's success is an explicit `epollOk`
input; note the C code updates the table before issuing `epoll_ctl`, so a
failing syscall still leaves the table updated. -/

/-- `BMB_MAX_FDS`. -/
def BMB_MAX_FDS : Nat := 1024

/-- `BMB_EL_OK`. -/
def BMB_EL_OK : Int := 0

/-- `BMB_EL_ERROR`. -/
def BMB_EL_ERROR : Int := -1

/-- One `BmbEventEntry` of the registration table. -/
structure BmbEventEntry where
  fd : Int
  events : Int
  callback : Int
  user_data : Int
  active : Bool
deriving Repr, DecidableEq

/-- The `BmbEventLoop` struct (platform poll state abstracted away). -/
structure BmbEventLoop where
  entries : List BmbEventEntry
  stopped : Bool
deriving Repr, DecidableEq

/-- `bmb_event_loop_create()`: empty table, not stopped. -/
def bmb_event_loop_create : BmbEventLoop :=
  { entries := [], stopped := false }

/-- The `find_entry` scan: index of the first active entry with the given
descriptor, scanning `entries[0..entry_count)` in order. -/
def find_entry_from (entries : List BmbEventEntry) (fd : Int) : Option Nat :=
  match entries with
  | [] => none
  | e :: rest =>
    if e.active = true ∧ e.fd = fd then some 0
    else (find_entry_from rest fd).map (· + 1)

/-- `find_entry(loop, fd)` (`-1` modelled as `none`). -/
def find_entry (l : BmbEventLoop) (fd : Int) : Option Nat :=
  find_entry_from l.entries fd

/-- The free-slot scan of `bmb_event_loop_register`: first inactive index,
`none` when every slot in `entries[0..entry_count)` is active (then the
register path appends, i.e. `entry_count++`). -/
def find_free_slot (entries : List BmbEventEntry) : Option Nat :=
  match entries with
  | [] => none
  | e :: rest =>
    if e.active = false then some 0
    else (find_free_slot rest).map (· + 1)

/-- `bmb_event_loop_register(loop, fd, events, callback, user_data)`:
reject a NULL callback or a full table; update the existing active entry
in place when `fd` is already registered, else fill the first free slot
(or grow the table); finally issue `epoll_ctl`, whose failure is reported
after the table was already updated. -/
def bmb_event_loop_register (epollOk : Bool) (l : BmbEventLoop)
    (fd events callback user_data : Int) : Int × BmbEventLoop :=
  if callback = 0 then (BMB_EL_ERROR, l)
  else if BMB_MAX_FDS ≤ l.entries.length then (BMB_EL_ERROR, l)
  else
    let entry : BmbEventEntry :=
      { fd := fd, events := events, callback := callback,
        user_data := user_data, active := true }
    let entries :=
      match find_entry l fd with
      | some idx => l.entries.set idx entry
      | none =>
        match find_free_slot l.entries with
        | some idx => l.entries.set idx entry
        | none => l.entries ++ [entry]
    if epollOk then (BMB_EL_OK, { l with entries := entries })
    else (BMB_EL_ERROR, { l with entries := entries })

/-- `bmb_event_loop_unregister(loop, fd)`: error when `fd` has no active
entry; otherwise clear that entry's `active` flag (and issue the
`EPOLL_CTL_DEL`, whose result is ignored). -/
def bmb_event_loop_unregister (l : BmbEventLoop) (fd : Int) : Int × BmbEventLoop :=
  match find_entry l fd with
  | none => (BMB_EL_ERROR, l)
  | some idx =>
    (BMB_EL_OK,
     { l with entries := List.modify (fun e => { e with active := false }) idx l.entries })

/-- `bmb_event_loop_stop(loop)`. -/
def bmb_event_loop_stop (l : BmbEventLoop) : BmbEventLoop :=
  { l with stopped := true }

/-- Event-loop states reachable from `create` through the operations that
touch the registration table (`run_once` touches it only through the
callbacks it invokes, which themselves go through register/unregister). -/
inductive EventLoopReachable : BmbEventLoop → Prop where
  | create : EventLoopReachable bmb_event_loop_create
  | register (epollOk : Bool) (l : BmbEventLoop) (fd events callback user_data : Int) :
      EventLoopReachable l →
      EventLoopReachable (bmb_event_loop_register epollOk l fd events callback user_data).2
  | unregister (l : BmbEventLoop) (fd : Int) :
      EventLoopReachable l →
      EventLoopReachable (bmb_event_loop_unregister l fd).2
  | stop (l : BmbEventLoop) :
      EventLoopReachable l → EventLoopReachable (bmb_event_loop_stop l)

theorem find_entry_from_none (es : List BmbEventEntry) (fd : Int)
    (h : find_entry_from es fd = none) :
    ∀ i (hi : i < es.length), (es.get ⟨i, hi⟩).active = true →
      (es.get ⟨i, hi⟩).fd ≠ fd := by
  induction es with
  | nil =>
    intro i hi
    exact absurd hi (by simp)
  | cons e rest ih =>
    rw [find_entry_from] at h
    split at h
    · exact absurd h (by simp)
    · rename_i hcond
      have hrest : find_entry_from rest fd = none := by
        rcases hr : find_entry_from rest fd with _ | j
        · rfl
        · rw [hr] at h
          exact absurd h (by simp)
      intro i hi
      match i with
      | 0 =>
        intro hact hfd
        exact hcond ⟨hact, hfd⟩
      | Nat.succ i =>
        exact ih hrest i (by simpa using hi)

theorem find_entry_from_some (es : List BmbEventEntry) (fd : Int) (i : Nat)
    (h : find_entry_from es fd = some i) :
    ∃ hi : i < es.length, (es.get ⟨i, hi⟩).active = true ∧
      (es.get ⟨i, hi⟩).fd = fd := by
  induction es generalizing i with
  | nil => exact absurd h (by simp [find_entry_from])
  | cons e rest ih =>
    rw [find_entry_from] at h
    split at h
    · rename_i hcond
      injection h with h
      subst h
      exact ⟨by simp, hcond.1, hcond.2⟩
    · rcases hr : find_entry_from rest fd with _ | j <;> rw [hr] at h
      · exact absurd h (by simp)
      · simp only [Option.map_some', Option.some.injEq] at h
        subst h
        obtain ⟨hj, hact, hfd⟩ := ih j hr
        exact ⟨by simpa using hj, hact, hfd⟩

theorem find_free_slot_some (es : List BmbEventEntry) (i : Nat)
    (h : find_free_slot es = some i) :
    ∃ hi : i < es.length, (es.get ⟨i, hi⟩).active = false := by
  induction es generalizing i with
  | nil => exact absurd h (by simp [find_free_slot])
  | cons e rest ih =>
    rw [find_free_slot] at h
    split at h
    · rename_i hcond
      injection h with h
      subst h
      exact ⟨by simp, hcond⟩
    · rcases hr : find_free_slot rest with _ | j <;> rw [hr] at h
      · exact absurd h (by simp)
      · simp only [Option.map_some', Option.some.injEq] at h
        subst h
        obtain ⟨hj, hact⟩ := ih j hr
        exact ⟨by simpa using hj, hact⟩

/-- The per-descriptor uniqueness invariant on a registration table. -/
def EntriesAtMostOne (es : List BmbEventEntry) : Prop :=
  ∀ i j (hi : i < es.length) (hj : j < es.length), i ≠ j →
    (es.get ⟨i, hi⟩).active = true → (es.get ⟨j, hj⟩).active = true →
    (es.get ⟨i, hi⟩).fd ≠ (es.get ⟨j, hj⟩).fd

theorem EntriesAtMostOne_set (es : List BmbEventEntry) (idx : Nat)
    (entry : BmbEventEntry) (hinv : EntriesAtMostOne es)
    (hfd : ∀ k (hk : k < es.length), k ≠ idx → (es.get ⟨k, hk⟩).active = true →
      (es.get ⟨k, hk⟩).fd ≠ entry.fd) :
    EntriesAtMostOne (es.set idx entry) := by
  intro i j hi hj hne hai haj
  simp only [List.get_eq_getElem, List.getElem_set] at hai haj ⊢
  have hi' : i < es.length := by simpa using hi
  have hj' : j < es.length := by simpa using hj
  by_cases hie : idx = i <;> by_cases hje : idx = j
  · exact absurd (hie.symm.trans hje) hne
  · rw [if_pos hie] at hai ⊢
    rw [if_neg hje] at haj ⊢
    exact (hfd j hj' (fun hh => hje hh.symm) haj).symm
  · rw [if_neg hie] at hai ⊢
    rw [if_pos hje] at haj ⊢
    exact hfd i hi' (fun hh => hie hh.symm) hai
  · rw [if_neg hie] at hai ⊢
    rw [if_neg hje] at haj ⊢
    have := hinv i j hi' hj' hne
    simp only [List.get_eq_getElem] at this
    exact this hai haj

theorem EntriesAtMostOne_append (es : List BmbEventEntry)
    (entry : BmbEventEntry) (hinv : EntriesAtMostOne es)
    (hfd : ∀ k (hk : k < es.length), (es.get ⟨k, hk⟩).active = true →
      (es.get ⟨k, hk⟩).fd ≠ entry.fd) :
    EntriesAtMostOne (es ++ [entry]) := by
  intro i j hi hj hne hai haj
  have hlen : (es ++ [entry]).length = es.length + 1 := by simp
  simp only [List.get_eq_getElem] at hai haj ⊢
  have hi2 : i < es.length + 1 := by omega
  have hj2 : j < es.length + 1 := by omega
  by_cases hie : i < es.length <;> by_cases hje : j < es.length
  · rw [List.getElem_append_left hie] at hai ⊢
    rw [List.getElem_append_left hje] at haj ⊢
    have := hinv i j hie hje hne
    simp only [List.get_eq_getElem] at this
    exact this hai haj
  · have hj3 : j = es.length := by omega
    rw [List.getElem_append_left hie] at hai ⊢
    rw [List.getElem_concat_length es entry j hj3] at haj ⊢
    exact hfd i hie hai
  · have hi3 : i = es.length := by omega
    rw [List.getElem_concat_length es entry i hi3] at hai ⊢
    rw [List.getElem_append_left hje] at haj ⊢
    exact fun hh => hfd j hje haj hh.symm
  · omega

theorem EntriesAtMostOne_deactivate (es : List BmbEventEntry) (idx : Nat)
    (hinv : EntriesAtMostOne es) :
    EntriesAtMostOne (List.modify (fun e => { e with active := false }) idx es) := by
  intro i j hi hj hne hai haj
  simp only [List.get_eq_getElem, List.getElem_modify] at hai haj ⊢
  have hi' : i < es.length := by simpa using hi
  have hj' : j < es.length := by simpa using hj
  by_cases hie : idx = i
  · rw [if_pos hie] at hai
    exact absurd hai (by simp)
  · by_cases hje : idx = j
    · rw [if_pos hje] at haj
      exact absurd haj (by simp)
    · rw [if_neg hie] at hai ⊢
      rw [if_neg hje] at haj ⊢
      have := hinv i j hi' hj' hne
      simp only [List.get_eq_getElem] at this
      exact this hai haj

/-- "Each descriptor has at most one active registration". -/
def EventLoopAtMostOne (l : BmbEventLoop) : Prop :=
  EntriesAtMostOne l.entries

theorem bmb_event_loop_register_table (l : BmbEventLoop)
    (fd events callback user_data : Int) (hinv : EntriesAtMostOne l.entries) :
    EntriesAtMostOne
      (match find_entry l fd with
        | some idx =>
          l.entries.set idx ⟨fd, events, callback, user_data, true⟩
        | none =>
          match find_free_slot l.entries with
          | some idx =>
            l.entries.set idx ⟨fd, events, callback, user_data, true⟩
          | none => l.entries ++ [⟨fd, events, callback, user_data, true⟩]) := by
  rcases hfind : find_entry l fd with _ | idx
  · rcases hfree : find_free_slot l.entries with _ | idx
    · exact EntriesAtMostOne_append l.entries _ hinv
        (fun k hk hact => find_entry_from_none l.entries fd hfind k hk hact)
    · exact EntriesAtMostOne_set l.entries idx _ hinv
        (fun k hk _ hact => find_entry_from_none l.entries fd hfind k hk hact)
  · obtain ⟨hidx, hact0, hfd0⟩ := find_entry_from_some l.entries fd idx hfind
    refine EntriesAtMostOne_set l.entries idx _ hinv ?_
    intro k hk hkne hact
    have := hinv k idx hk hidx hkne hact hact0
    rw [hfd0] at this
    exact this

theorem bmb_event_loop_register_preserves (epollOk : Bool) (l : BmbEventLoop)
    (fd events callback user_data : Int) (hinv : EventLoopAtMostOne l) :
    EventLoopAtMostOne (bmb_event_loop_register epollOk l fd events callback user_data).2 := by
  unfold bmb_event_loop_register
  by_cases hcb : callback = 0
  · rw [if_pos hcb]
    exact hinv
  · rw [if_neg hcb]
    by_cases hmax : BMB_MAX_FDS ≤ l.entries.length
    · rw [if_pos hmax]
      exact hinv
    · rw [if_neg hmax]
      cases epollOk <;> dsimp only [] <;>
        exact bmb_event_loop_register_table l fd events callback user_data hinv

theorem bmb_event_loop_unregister_preserves (l : BmbEventLoop) (fd : Int)
    (hinv : EventLoopAtMostOne l) :
    EventLoopAtMostOne (bmb_event_loop_unregister l fd).2 := by
  unfold bmb_event_loop_unregister
  rcases hfind : find_entry l fd with _ | idx <;> dsimp only []
  · exact hinv
  · exact EntriesAtMostOne_deactivate l.entries idx hinv

theorem bmb_event_loop_reachable_inv (l : BmbEventLoop)
    (h : EventLoopReachable l) : EventLoopAtMostOne l := by
  induction h with
  | create =>
    intro i j hi
    exact absurd hi (by simp [bmb_event_loop_create])
  | register epollOk l fd events callback user_data _ ih =>
    exact bmb_event_loop_register_preserves epollOk l fd events callback user_data ih
  | unregister l fd _ ih =>
    exact bmb_event_loop_unregister_preserves l fd ih
  | stop l _ ih =>
    exact ih

/-- C7: in every reachable event-loop state each descriptor has at most
one active registration, and `bmb_event_loop_register` on an fd that is
already registered updates that entry's interest mask, callback and
user_data in place — the table keeps its length, so no duplicate entry
for the fd is ever created. -/
theorem bmb_event_loop_single_registration :
    (∀ l, EventLoopReachable l → EventLoopAtMostOne l) ∧
    (∀ (epollOk : Bool) (l : BmbEventLoop) (fd events callback user_data : Int)
       (idx : Nat),
      callback ≠ 0 → l.entries.length < BMB_MAX_FDS →
      find_entry l fd = some idx →
      (bmb_event_loop_register epollOk l fd events callback user_data).2.entries =
        l.entries.set idx ⟨fd, events, callback, user_data, true⟩ ∧
      (bmb_event_loop_register epollOk l fd events callback user_data).2.entries.length =
        l.entries.length) := by
  constructor
  · exact fun l h => bmb_event_loop_reachable_inv l h
  · intro epollOk l fd events callback user_data idx hcb hlen hfind
    unfold bmb_event_loop_register
    rw [if_neg hcb, if_neg (by omega : ¬ BMB_MAX_FDS ≤ l.entries.length)]
    cases epollOk <;> simp [hfind]

/-- Witness for C7: the invariant at the freshly created loop, and an
in-place update of a concretely registered descriptor. -/
theorem bmb_event_loop_single_registration_witness :
    EventLoopAtMostOne bmb_event_loop_create ∧
    (bmb_event_loop_register true
        ⟨[⟨5, 1, 7, 9, true⟩], false⟩ 5 2 8 3).2.entries =
      [(⟨5, 1, 7, 9, true⟩ : BmbEventEntry)].set 0 ⟨5, 2, 8, 3, true⟩ :=
  ⟨bmb_event_loop_single_registration.1 bmb_event_loop_create EventLoopReachable.create,
   (bmb_event_loop_single_registration.2 true ⟨[⟨5, 1, 7, 9, true⟩], false⟩ 5 2 8 3 0
     (by decide) (by decide) (by decide)).1⟩

theorem bmb_event_loop_unregister_none (l : BmbEventLoop) (fd : Int)
    (h : find_entry l fd = none) :
    bmb_event_loop_unregister l fd = (BMB_EL_ERROR, l) := by
  unfold bmb_event_loop_unregister
  rw [h]

theorem find_entry_after_unregister (l : BmbEventLoop) (fd : Int) (idx : Nat)
    (hinv : EventLoopAtMostOne l) (hfind : find_entry l fd = some idx) :
    find_entry (bmb_event_loop_unregister l fd).2 fd = none := by
  unfold bmb_event_loop_unregister
  rw [hfind]
  dsimp only []
  rcases hf2 : find_entry_from
      (List.modify (fun e => { e with active := false }) idx l.entries) fd with _ | j
  · exact hf2
  · exfalso
    obtain ⟨hj, hact, hfd⟩ := find_entry_from_some _ fd j hf2
    simp only [List.get_eq_getElem, List.getElem_modify] at hact hfd
    obtain ⟨hidx, hact0, hfd0⟩ := find_entry_from_some l.entries fd idx hfind
    have hj' : j < l.entries.length := by simpa using hj
    by_cases hje : idx = j
    · rw [if_pos hje] at hact
      simp at hact
    · rw [if_neg hje] at hact hfd
      have hne := hinv j idx hj' hidx (fun hh => hje hh.symm)
      simp only [List.get_eq_getElem] at hne hact0 hfd0
      exact hne hact hact0 (hfd.trans hfd0.symm)

/-- C8 amended: `bmb_event_loop_unregister` of an unregistered (or
already unregistered) descriptor leaves the loop state unchanged, and a
second unregister of the same fd yields the same loop state as the
first — but the call on an unregistered fd returns `BMB_EL_ERROR`, not
success, so only the state (not the return code) is idempotent. -/
theorem bmb_event_loop_unregister_amended (l : BmbEventLoop) (fd : Int)
    (hinv : EventLoopAtMostOne l) :
    (find_entry l fd = none → bmb_event_loop_unregister l fd = (BMB_EL_ERROR, l)) ∧
    (bmb_event_loop_unregister (bmb_event_loop_unregister l fd).2 fd).2 =
      (bmb_event_loop_unregister l fd).2 ∧
    (∀ idx, find_entry l fd = some idx →
      (bmb_event_loop_unregister l fd).1 = BMB_EL_OK ∧
      (bmb_event_loop_unregister (bmb_event_loop_unregister l fd).2 fd).1 =
        BMB_EL_ERROR) := by
  refine ⟨bmb_event_loop_unregister_none l fd, ?_, ?_⟩
  · rcases hfind : find_entry l fd with _ | idx
    · rw [bmb_event_loop_unregister_none l fd hfind,
        bmb_event_loop_unregister_none l fd hfind]
    · rw [bmb_event_loop_unregister_none _ _
        (find_entry_after_unregister l fd idx hinv hfind)]
  · intro idx hfind
    constructor
    · unfold bmb_event_loop_unregister
      rw [hfind]
    · rw [bmb_event_loop_unregister_none _ _
        (find_entry_after_unregister l fd idx hinv hfind)]

/-- C8 counterexample: register fd 5, unregister it (returns `BMB_EL_OK`),
then unregister again: the second call returns `BMB_EL_ERROR` (-1), an
error — so "unregistering a no-longer-registered descriptor is not an
error / has the same result as one call" fails for the return code. -/
theorem bmb_event_loop_unregister_second_errors_cex :
    (bmb_event_loop_unregister
      (bmb_event_loop_register true bmb_event_loop_create 5 1 7 9).2 5).1 = BMB_EL_OK ∧
    (bmb_event_loop_unregister
      (bmb_event_loop_unregister
        (bmb_event_loop_register true bmb_event_loop_create 5 1 7 9).2 5).2 5).1 =
      BMB_EL_ERROR ∧
    BMB_EL_ERROR ≠ BMB_EL_OK :=
  ⟨by decide, by decide, by decide⟩

/-- Witness for the C8 amendment on a loop holding one registration of
descriptor 5. -/
theorem bmb_event_loop_unregister_amended_witness :
    (bmb_event_loop_unregister
      (bmb_event_loop_unregister ⟨[⟨5, 1, 7, 9, true⟩], false⟩ 5).2 5).2 =
      (bmb_event_loop_unregister (⟨[⟨5, 1, 7, 9, true⟩], false⟩ : BmbEventLoop) 5).2 ∧
    (bmb_event_loop_unregister (⟨[⟨5, 1, 7, 9, true⟩], false⟩ : BmbEventLoop) 5).1 =
      BMB_EL_OK ∧
    (bmb_event_loop_unregister
      (bmb_event_loop_unregister ⟨[⟨5, 1, 7, 9, true⟩], false⟩ 5).2 5).1 =
      BMB_EL_ERROR := by
  have hinv : EventLoopAtMostOne (⟨[⟨5, 1, 7, 9, true⟩], false⟩ : BmbEventLoop) := by
    intro i j hi hj hne
    have hi1 : i < 1 := hi
    have hj1 : j < 1 := hj
    exact absurd (by omega) hne
  have h := bmb_event_loop_unregister_amended ⟨[⟨5, 1, 7, 9, true⟩], false⟩ 5 hinv
  exact ⟨h.2.1, (h.2.2 0 (by decide)).1, (h.2.2 0 (by decide)).2⟩
